import Mathlib

set_option linter.deprecated false

/-!
Verification of the pyui view core (`pyui/views/base.py`) against its
natural-language specification.  The view tree, reconciliation, layout,
hit-testing and invalidation operations are shallowly embedded below;
Python's in-place mutation is modelled by explicit state passing, and a
raised exception is modelled by an `err` result that carries the message
together with the object state at the moment the exception propagates.
-/

namespace PyUI

/-- Modelled from the spec: `pyui.geom.Size` (geom.py is not under src/).
A width/height pair of Python integers. -/
structure Size where
  w : Int
  h : Int
deriving DecidableEq

/-- Modelled from the spec: `pyui.geom.Point` (geom.py is not under src/). -/
structure Point where
  x : Int
  y : Int
deriving DecidableEq

/-- Modelled from the spec: `pyui.geom.Insets` (geom.py is not under src/);
per-edge insets, indexed per axis as the sum of the two edges of that axis
(`padding[Axis.HORIZONTAL] = left + right`, and `.width`/`.height`
likewise, consistently with their use in `View.resize` and
`View.minimum_size`). -/
structure Insets where
  left : Int
  top : Int
  right : Int
  bottom : Int
deriving DecidableEq

def Insets.width (i : Insets) : Int := i.left + i.right

def Insets.height (i : Insets) : Int := i.top + i.bottom

/-- Modelled from the spec: `pyui.geom.Rect` (geom.py is not under src/);
an origin plus a size. -/
structure Rect where
  origin : Point
  size : Size
deriving DecidableEq

def Rect.left (r : Rect) : Int := r.origin.x

def Rect.top (r : Rect) : Int := r.origin.y

def Rect.width (r : Rect) : Int := r.size.w

def Rect.height (r : Rect) : Int := r.size.h

/-- Modelled from the spec: shrinking a rect by insets (`rect - padding -
border` in `reposition` and `render`): the origin moves in by the
leading edges, the size loses the sum of both edges on each axis. -/
def Rect.shrink (r : Rect) (i : Insets) : Rect :=
  ⟨⟨r.origin.x + i.left, r.origin.y + i.top⟩,
   ⟨r.size.w - i.width, r.size.h - i.height⟩⟩

/-- Modelled from the spec: `point ∈ frame` membership used by `find`
(geom.py is not under src/).  A half-open box test; the claims only ever
evaluate it at interior points, where any boundary convention agrees. -/
def Rect.containsPt (r : Rect) (p : Point) : Bool :=
  decide (r.left ≤ p.x) && decide (p.x < r.left + r.width) &&
  decide (r.top ≤ p.y) && decide (p.y < r.top + r.height)

/-- Modelled from the spec: the Environment value (env.py is not under
src/).  §4.5: a cascading record of style fields (scale factor, font,
color); a child's Environment starts as a copy of the parent's and then
has the child's own explicit overrides applied. -/
structure Env where
  scale : Int
  font : String
  color : Int
deriving DecidableEq

/-- Modelled from the spec: a node's explicit Environment overrides;
`none` in a field means the field is inherited verbatim from the parent
(§3: "fields parent doesn't set are inherited verbatim"). -/
structure EnvOverrides where
  scale : Option Int
  font : Option String
  color : Option Int
deriving DecidableEq

/-- No explicit overrides at all. -/
def EnvOverrides.noOverride : EnvOverrides := ⟨none, none, none⟩

/-- Modelled from the spec: `Environment.inherit` (§4.5) — start from a
copy of the parent's Environment, then apply the child's own explicit
overrides field by field. -/
def Env.overlay (parent : Env) (o : EnvOverrides) : Env :=
  ⟨o.scale.getD parent.scale, o.font.getD parent.font, o.color.getD parent.color⟩

/-- The per-object fields of a Python `View` instance that the claims
read or write.  `parentSet` models whether the `parent` back-reference
has been assigned (the referent, when assigned by `rebuild`, is the
rebuilding node, which is recoverable from the node's position in the
tree; a raw pointer cannot be stored in a purely functional tree).
`contentSizeFn` is the `content_size` method (the base `View` default is
the constant zero size; widgets override it); `minSizeOverride`, when
present, is a widget's constant `minimum_size` override (the base
`View` folds over subviews). `attrs` are the open named attributes set
from the construction options map, read back by `getattr` in the
`find`/`find_all` filters. -/
structure ViewData where
  name : String
  frame : Rect
  padding : Insets
  border : Insets
  dirty : Bool
  parentSet : Bool
  index : Nat
  env : Env
  envOverrides : EnvOverrides
  attrs : List (String × String)
  contentSizeFn : Size → Size
  minSizeOverride : Option Size

instance viewDataSizeOf : SizeOf ViewData := ⟨fun _ => 1⟩

/-- A value produced by `View.content()` during reconciliation.  A
well-formed declared child is a `node` (a live `View` object, yielding
itself from `__iter__`); `bad s` is any other Python value, carrying its
runtime type name `s`, which `rebuild` rejects with a `ValueError`.
`node data contents subviews` carries the instance fields, the declared
content sequence, and the current reconciled child list. -/
inductive View : Type where
  | bad : String → View
  | node : ViewData → List View → List View → View

namespace View

def name : View → String
  | .bad s => s
  | .node d _ _ => d.name

def contents : View → List View
  | .bad _ => []
  | .node _ cs _ => cs

def subviews : View → List View
  | .bad _ => []
  | .node _ _ ss => ss

def dataOf : View → Option ViewData
  | .bad _ => none
  | .node d _ _ => some d

def frame : View → Rect
  | .bad _ => ⟨⟨0, 0⟩, ⟨0, 0⟩⟩
  | .node d _ _ => d.frame

def envOf : View → Env
  | .bad _ => ⟨0, "", 0⟩
  | .node d _ _ => d.env

def envOverridesOf : View → EnvOverrides
  | .bad _ => EnvOverrides.noOverride
  | .node d _ _ => d.envOverrides

def dirtyOf : View → Bool
  | .bad _ => false
  | .node d _ _ => d.dirty

def indexOf : View → Nat
  | .bad _ => 0
  | .node d _ _ => d.index

def parentSetOf : View → Bool
  | .bad _ => false
  | .node d _ _ => d.parentSet

end View

/-- Result of a state-mutating operation that can raise: `ok s` is normal
return with final state `s`; `err m s` is a propagating exception whose
message names the runtime type `m`, with the object state `s` at the
moment the exception leaves the call (Python exceptions do not roll
back mutations already performed). -/
inductive Res (α : Type) : Type where
  | ok : α → Res α
  | err : String → α → Res α
deriving DecidableEq

def Res.isOk {α : Type} : Res α → Bool
  | .ok _ => true
  | .err _ _ => false

def Res.state {α : Type} : Res α → α
  | .ok a => a
  | .err _ a => a

/-- The preparation `rebuild` performs on each produced child before
recursing (base.py lines 96–98): `view.parent = self` (modelled by
`parentSet := true`), `view.index = idx`, and
`view.env.inherit(self.env)` (modelled from the spec §4.5 as
copy-then-override, env.py not being under src/).  On a non-`View`
value this point is never reached. -/
def prep (e : Env) (idx : Nat) : View → View
  | .bad s => .bad s
  | .node d cs ss =>
      .node { d with parentSet := true, index := idx, env := Env.overlay e d.envOverrides } cs ss

mutual

/-- `View.rebuild` (base.py lines 91–102): iterate the flattened content
(each plain `View` yields itself), reject any non-`View` value with a
`ValueError` naming its runtime type, wire `parent`/`index`/`env` on
each produced child, recursively rebuild it, and only after the whole
loop succeeds install the new list as `subviews`.  On an exception the
node's `subviews` keeps its old value while `contents` reflects the
in-place mutations already performed on the produced children (the
produced children are the very objects held in `contents`). -/
def rebuild : View → Res View
  | .bad s => .err s (.bad s)
  | .node d cs ss =>
      match rebuildChildren d.env 0 cs with
      | .ok cs' => .ok (.node d cs' cs')
      | .err m cs' => .err m (.node d cs' ss)
termination_by v => sizeOf v
decreasing_by
  all_goals simp [prep, viewDataSizeOf]
  all_goals omega

/-- The `for idx, view in enumerate(self.content())` loop of `rebuild`,
threading the mutated prefix of the produced children.  `e` is the
parent's environment, `idx` the enumeration index. -/
def rebuildChildren (e : Env) (idx : Nat) : List View → Res (List View)
  | [] => .ok []
  | c :: rest =>
      match c with
      | .bad s => .err s (.bad s :: rest)
      | .node cd ccs css =>
          match rebuild (prep e idx (.node cd ccs css)) with
          | .err m c' => .err m (c' :: rest)
          | .ok c' =>
              match rebuildChildren e (idx + 1) rest with
              | .ok rest' => .ok (c' :: rest')
              | .err m rest' => .err m (c' :: rest')
termination_by cs => sizeOf cs
decreasing_by
  all_goals simp [prep, viewDataSizeOf]
  all_goals omega

end

def View.paddingOf : View → Insets
  | .bad _ => ⟨0, 0, 0, 0⟩
  | .node d _ _ => d.padding

def View.borderOf : View → Insets
  | .bad _ => ⟨0, 0, 0, 0⟩
  | .node d _ _ => d.border

/-- `View.content_size` (base.py lines 126–131): the base `View` returns
the zero size; widgets override it, which the embedding carries in the
`contentSizeFn` field. -/
def content_size : View → Size → Size
  | .bad _, _ => ⟨0, 0⟩
  | .node d _ _, avail => d.contentSizeFn avail

/-- One step of the accumulator loop of `View.minimum_size` (base.py
lines 118–123): for each axis the running minimum becomes
`max(child.minimum_size()[axis], running + child.padding[axis] + child.border[axis])`. -/
def minStep (acc : Size) (m : Size) (pad bor : Insets) : Size :=
  ⟨max m.w (acc.w + pad.width + bor.width), max m.h (acc.h + pad.height + bor.height)⟩

mutual

/-- `View.minimum_size` (base.py lines 114–124): the base implementation
folds `minStep` over the subviews starting from the zero size; a widget
with a constant override (carried in `minSizeOverride`) returns that
instead. -/
def minimum_size : View → Size
  | .bad _ => ⟨0, 0⟩
  | .node d _ ss =>
      match d.minSizeOverride with
      | some s => s
      | none => minSizeFold ss ⟨0, 0⟩

def minSizeFold : List View → Size → Size
  | [], acc => acc
  | c :: rest, acc => minSizeFold rest (minStep acc (minimum_size c) c.paddingOf c.borderOf)

end

mutual

/-- `View.resize` (base.py lines 147–166): clamp `available` minus own
padding and border to zero per axis, resize every subview with that
`inside`, and set the frame size to the maximum of the subview frame
sizes (folded from zero) and `content_size(inside)`, plus own padding
and border.  The frame origin is untouched. -/
def resize : View → Size → View
  | .bad s, _ => .bad s
  | .node d cs ss, avail =>
      let inside : Size :=
        ⟨max 0 (avail.w - d.padding.width - d.border.width),
         max 0 (avail.h - d.padding.height - d.border.height)⟩
      let ss' := resizeList ss inside
      let mw := ss'.foldl (fun m c => max m c.frame.width) 0
      let mh := ss'.foldl (fun m c => max m c.frame.height) 0
      let csz := content_size (.node d cs ss) inside
      .node { d with frame :=
        { d.frame with size :=
            ⟨max mw csz.w + d.padding.width + d.border.width,
             max mh csz.h + d.padding.height + d.border.height⟩ } } cs ss'

def resizeList : List View → Size → List View
  | [], _ => []
  | c :: rest, inside => resize c inside :: resizeList rest inside

end

mutual

/-- `View.reposition` (base.py lines 168–178): center the frame within
the enclosing rect `inside` using Python floor division, then reposition
every subview within `inner = inside - padding - border`. -/
def reposition : View → Rect → View
  | .bad s, _ => .bad s
  | .node d cs ss, inside =>
      let d' := { d with frame :=
        { d.frame with origin :=
            ⟨inside.left + Int.fdiv (inside.width - d.frame.width) 2,
             inside.top + Int.fdiv (inside.height - d.frame.height) 2⟩ } }
      let inner := (inside.shrink d.padding).shrink d.border
      .node d' cs (repositionList ss inner)

def repositionList : List View → Rect → List View
  | [], _ => []
  | c :: rest, inner => reposition c inner :: repositionList rest inner

end

mutual

/-- The reposition pass as the spec sentence for claim C2 words it:
identical centering of the origin, but the subviews are repositioned
within `inner = frame - padding - border` — the node's own (freshly
centered) frame shrunk by its insets — instead of the enclosing rect.
Stated only to be compared with `reposition`; it is the spec's words,
not the source's. -/
def repositionSpec : View → Rect → View
  | .bad s, _ => .bad s
  | .node d cs ss, inside =>
      let newFrame : Rect :=
        { d.frame with origin :=
            ⟨inside.left + Int.fdiv (inside.width - d.frame.width) 2,
             inside.top + Int.fdiv (inside.height - d.frame.height) 2⟩ }
      let inner := (newFrame.shrink d.padding).shrink d.border
      .node { d with frame := newFrame } cs (repositionSpecList ss inner)

def repositionSpecList : List View → Rect → List View
  | [], _ => []
  | c :: rest, inner => repositionSpec c inner :: repositionSpecList rest inner

end

/-- Setting the `dirty` flag on a node (`self.dirty = False` in `layout`,
`self.root.dirty = True` in `state_changed`). -/
def setDirty : View → Bool → View
  | .bad s, _ => .bad s
  | .node d cs ss, b => .node { d with dirty := b } cs ss

/-- `View.layout` (base.py lines 180–185): rebuild first if `subviews`
is empty (a raised `ValueError` propagates), then resize with the rect's
size, reposition within the rect, and clear this node's `dirty` flag. -/
def layout (v : View) (r : Rect) : Res View :=
  match (if v.subviews.isEmpty then rebuild v else .ok v) with
  | .err m s => .err m s
  | .ok v1 => .ok (setDirty (reposition (resize v1 r.size) r) false)

/-- The attribute-equality filter test of `find`/`find_all` (base.py
lines 232 and 238): every `(attr, value)` pair must satisfy
`getattr(self, attr, None) == value`, the open attributes living in the
`attrs` map with `none` as the missing-attribute default. -/
def matchesFilters (d : ViewData) (fl : List (String × Option String)) : Bool :=
  fl.all fun p => d.attrs.lookup p.1 == p.2

/-- Filter test lifted to a produced value; a non-`View` value never
participates in traversal (it is rejected by `rebuild` long before). -/
def matchesV : View → List (String × Option String) → Bool
  | .bad _, _ => false
  | .node d _ _, fl => matchesFilters d fl

mutual

/-- `View.find` (base.py lines 226–234): if the point is inside this
node's frame, try every subview in declaration order and return the
first hit; only if no subview matches test this node against the filter
set. -/
def find : View → Point → List (String × Option String) → Option View
  | .bad _, _, _ => none
  | .node d cs ss, pt, fl =>
      if d.frame.containsPt pt then
        match findList ss pt fl with
        | some r => some r
        | none => if matchesFilters d fl then some (.node d cs ss) else none
      else none

def findList : List View → Point → List (String × Option String) → Option View
  | [], _, _ => none
  | c :: rest, pt, fl =>
      match find c pt fl with
      | some r => some r
      | none => findList rest pt fl

end

mutual

/-- `View.find_all` (base.py lines 236–242): this node first if it
matches, then all matches from the subviews in order. -/
def find_all : View → List (String × Option String) → List View
  | .bad _, _ => []
  | .node d cs ss, fl =>
      (if matchesFilters d fl then [View.node d cs ss] else []) ++ find_allList ss fl

def find_allList : List View → List (String × Option String) → List View
  | [], _ => []
  | c :: rest, fl => find_all c fl ++ find_allList rest fl

end

mutual

/-- The pre-order listing of a tree: the node itself, then the pre-order
listings of its subviews in order. -/
def preorder : View → List View
  | .bad s => [View.bad s]
  | .node d cs ss => View.node d cs ss :: preorderList ss

def preorderList : List View → List View
  | [] => []
  | c :: rest => preorder c ++ preorderList rest

end

/-- Navigation through live `subviews` by child indices. -/
def subAt : View → List Nat → Option View
  | v, [] => some v
  | .bad _, _ :: _ => none
  | .node _ _ ss, i :: p =>
      match ss.get? i with
      | some c => subAt c p
      | none => none

/-- Replace the subtree at a `subviews` path (identity on an invalid
path); this is how the in-place mutation of a node reached through
`parent` back-references is reflected at the tree root. -/
def updateSub : View → List Nat → View → View
  | _, [], r => r
  | .bad s, _ :: _, _ => .bad s
  | .node d cs ss, i :: p, r =>
      match ss.get? i with
      | some c => .node d cs (ss.set i (updateSub c p r))
      | none => .node d cs ss

/-- `View.state_changed` (base.py lines 271–273): rebuild the notifying
node's subtree in place (`self.rebuild()`), then set the tree root's
`dirty` flag (`self.root.dirty = True`).  The notifying node is given by
its path from the root; the `root` property walks the `parent`
back-references, which by the hierarchy invariant lead to the tree root.
The `name`/`value` arguments are ignored by the source.  A `ValueError`
raised by the rebuild propagates before the root is marked dirty. -/
def state_changed (root : View) (path : List Nat) (_nm _val : String) : Res View :=
  match subAt root path with
  | none => .ok root
  | some n =>
      match rebuild n with
      | .err m s => .err m (updateSub root path s)
      | .ok n' => .ok (setDirty (updateSub root path n') true)

/-- Navigation through declared `contents` by child indices. -/
def declAt : View → List Nat → Option View
  | v, [] => some v
  | .bad _, _ :: _ => none
  | .node _ cs _, i :: p =>
      match cs.get? i with
      | some c => declAt c p
      | none => none

/-- The Environment a node at declaration path `q` ends up with after a
successful rebuild under the ambient environment `e`: the overlay of the
explicit overrides of the declared nodes along the path, applied in
order on top of `e`. -/
def chainEnv : Env → View → List Nat → Option Env
  | e, _, [] => some e
  | _, .bad _, _ :: _ => none
  | e, .node _ cs _, i :: p =>
      match cs.get? i with
      | some c => chainEnv (Env.overlay e c.envOverridesOf) c p
      | none => none

/-- Replace the declared subtree at a `contents` path (identity on an
invalid path). -/
def replaceDecl : View → List Nat → View → View
  | _, [], s => s
  | .bad b, _ :: _, _ => .bad b
  | .node d cs ss, i :: p, s =>
      match cs.get? i with
      | some c => .node d (cs.set i (replaceDecl c p s)) ss
      | none => .node d cs ss

/-- `offPath p q` holds when path `q` lies outside the subtree rooted at
path `p`, i.e. `p` is not a prefix of `q`. -/
def offPath : List Nat → List Nat → Bool
  | [], _ => false
  | _ :: _, [] => true
  | i :: p, j :: q => if i = j then offPath p q else true

mutual

/-- The runtime type name of the first non-`View` value the `rebuild`
traversal of the declarations would encounter, if any. -/
def firstBad : View → Option String
  | .bad s => some s
  | .node _ cs _ => firstBadL cs

def firstBadL : List View → Option String
  | [] => none
  | c :: rest =>
      match firstBad c with
      | some s => some s
      | none => firstBadL rest

end

/-- The mutated states of the produced children that precede an
offending value in the `rebuild` loop: each has been prepared
(`parent`/`index`/`env` assigned) and recursively rebuilt, starting at
enumeration index `j`. -/
def rebuiltPre (e : Env) : Nat → List View → List View
  | _, [] => []
  | j, c :: r => (rebuild (prep e j c)).state :: rebuiltPre e (j + 1) r

/-- Instance data for the concrete test trees: zero geometry, no
insets, base-class measurement hooks, default environment. -/
def baseData (nm : String) : ViewData where
  name := nm
  frame := ⟨⟨0, 0⟩, ⟨0, 0⟩⟩
  padding := ⟨0, 0, 0, 0⟩
  border := ⟨0, 0, 0, 0⟩
  dirty := false
  parentSet := false
  index := 0
  env := ⟨1, "default", 0⟩
  envOverrides := EnvOverrides.noOverride
  attrs := []
  contentSizeFn := fun _ => ⟨0, 0⟩
  minSizeOverride := none

/-- Overlapping-siblings scenario: sibling `A` declared first. -/
def hitA : View := .node { baseData "A" with frame := ⟨⟨0, 0⟩, ⟨50, 50⟩⟩ } [] []

/-- Overlapping-siblings scenario: sibling `B` declared second; its
frame overlaps `A`'s. -/
def hitB : View := .node { baseData "B" with frame := ⟨⟨25, 25⟩, ⟨50, 50⟩⟩ } [] []

/-- Overlapping-siblings scenario: the parent of `A` and `B`, whose
frame contains both. -/
def hitRoot : View :=
  .node { baseData "HitRoot" with frame := ⟨⟨0, 0⟩, ⟨100, 100⟩⟩ } [hitA, hitB] [hitA, hitB]

/-- Reposition scenario: a child of frame size (1,1). -/
def ctrChild : View := .node { baseData "CtrChild" with frame := ⟨⟨0, 0⟩, ⟨1, 1⟩⟩ } [] []

/-- Reposition scenario: a node of frame size (2,2) holding `ctrChild`,
repositioned inside a rect of size (3,3). -/
def ctrRoot : View :=
  .node { baseData "CtrRoot" with frame := ⟨⟨0, 0⟩, ⟨2, 2⟩⟩ } [ctrChild] [ctrChild]

/-- A well-formed declared child with no declarations of its own. -/
def goodChild : View := .node (baseData "Good") [] []

/-- The pre-reconciliation child list of `badTree`. -/
def oldChild : View := .node (baseData "Old") [] []

/-- A tree whose declarations contain a valid child followed by a value
of runtime type `str`; its current `subviews` still holds `oldChild`. -/
def badTree : View := .node (baseData "BadRoot") [goodChild, .bad "str"] [oldChild]

/-- End-to-end scenario: a leaf whose `minimum_size()` returns (50,20)
and whose `content_size` is the base-class zero default. -/
def leafMin : View := .node { baseData "LeafMin" with minSizeOverride := some ⟨50, 20⟩ } [] []

/-- End-to-end scenario: a root with padding (10,10,10,10) holding
`leafMin`. -/
def rootMin : View := .node { baseData "RootPad" with padding := ⟨10, 10, 10, 10⟩ } [leafMin] [leafMin]

/-- End-to-end scenario, amended: the same leaf but with
`content_size(available) = (50,20)`, the hook `resize` actually
consults. -/
def leafContent : View :=
  .node { baseData "LeafContent" with
            minSizeOverride := some ⟨50, 20⟩, contentSizeFn := fun _ => ⟨50, 20⟩ } [] []

/-- End-to-end scenario, amended: a root with padding (10,10,10,10)
holding `leafContent`. -/
def rootContent : View :=
  .node { baseData "RootPad2" with padding := ⟨10, 10, 10, 10⟩ } [leafContent] [leafContent]

/-- The (200,100) viewport of the end-to-end scenario. -/
def viewport : Rect := ⟨⟨0, 0⟩, ⟨200, 100⟩⟩

/-- Three-level traversal scenario: the innermost node. -/
def lvLeaf : View := .node { baseData "leaf" with frame := ⟨⟨0, 0⟩, ⟨100, 100⟩⟩ } [] []

/-- Three-level traversal scenario: the middle node. -/
def lvMid : View := .node { baseData "mid" with frame := ⟨⟨0, 0⟩, ⟨100, 100⟩⟩ } [lvLeaf] [lvLeaf]

/-- Three-level traversal scenario: the root; all three frames contain
the probe point and all three nodes match the empty filter set. -/
def lvRoot : View := .node { baseData "root" with frame := ⟨⟨0, 0⟩, ⟨100, 100⟩⟩ } [lvMid] [lvMid]

/-- Invalidation scenario: a child with no declarations. -/
def invChild : View := .node (baseData "InvChild") [] []

/-- Invalidation scenario: a root holding `invChild`. -/
def invRoot : View := .node (baseData "InvRoot") [invChild] [invChild]

/-- Environment scenario: first child, overriding the font field only. -/
def envKid1 : View :=
  .node { baseData "Kid1" with envOverrides := ⟨none, some "mono", none⟩ } [] []

/-- Environment scenario: second child, with no explicit overrides. -/
def envKid2 : View := .node (baseData "Kid2") [] []

/-- Environment scenario: a parent with environment (2, serif, 7)
declaring `envKid1` and `envKid2`. -/
def envRoot : View :=
  .node { baseData "EnvRoot" with env := ⟨2, "serif", 7⟩ } [envKid1, envKid2] []

/-- The `inside` size computed by `resize` (base.py lines 153–156):
`available` minus own padding and border, clamped to zero independently
on each axis. -/
def insideSize (d : ViewData) (avail : Size) : Size :=
  ⟨max 0 (avail.w - d.padding.width - d.border.width),
   max 0 (avail.h - d.padding.height - d.border.height)⟩

/- ===================== helper lemmas ===================== -/

theorem resizeList_eq_map (ss : List View) (s : Size) :
    resizeList ss s = ss.map (fun c => resize c s) := by
  induction ss with
  | nil => simp [resizeList]
  | cons c rest ih => simp [resizeList, ih]

theorem repositionList_eq_map (ss : List View) (r : Rect) :
    repositionList ss r = ss.map (fun c => reposition c r) := by
  induction ss with
  | nil => simp [repositionList]
  | cons c rest ih => simp [repositionList, ih]

theorem minSizeFold_eq_foldl (ss : List View) (acc : Size) :
    minSizeFold ss acc =
      ss.foldl (fun a c =>
        (⟨max (minimum_size c).w (a.w + c.paddingOf.width + c.borderOf.width),
          max (minimum_size c).h (a.h + c.paddingOf.height + c.borderOf.height)⟩ : Size)) acc := by
  induction ss generalizing acc with
  | nil => simp [minSizeFold]
  | cons c rest ih => simp [minSizeFold, minStep, ih]

theorem findList_eq_findSome (ss : List View) (pt : Point)
    (fl : List (String × Option String)) :
    findList ss pt fl = ss.findSome? (fun c => find c pt fl) := by
  induction ss with
  | nil => simp [findList]
  | cons c rest ih =>
      rw [findList, List.findSome?_cons, ih]
      cases find c pt fl <;> rfl

theorem findList_eq_none_iff (ss : List View) (pt : Point)
    (fl : List (String × Option String)) :
    findList ss pt fl = none ↔ ∀ c ∈ ss, find c pt fl = none := by
  induction ss with
  | nil => simp [findList]
  | cons c rest ih =>
      rw [findList]
      cases h : find c pt fl with
      | some r => simp [h]
      | none => simp [h, ih]

theorem findList_some_mem (ss : List View) (pt : Point)
    (fl : List (String × Option String)) (x : View)
    (h : findList ss pt fl = some x) : ∃ c ∈ ss, find c pt fl = some x := by
  induction ss with
  | nil => simp [findList] at h
  | cons c rest ih =>
      rw [findList] at h
      cases hc : find c pt fl with
      | some r =>
          rw [hc] at h
          simp only [] at h
          exact ⟨c, by simp, by rw [hc]; exact h⟩
      | none =>
          rw [hc] at h
          simp only [] at h
          obtain ⟨c', hm, hf⟩ := ih h
          exact ⟨c', by simp [hm], hf⟩

theorem find_innermost_aux :
    ∀ (n : Nat) (v : View), sizeOf v ≤ n →
      ∀ (pt : Point) (fl : List (String × Option String)) (x : View),
        find v pt fl = some x →
          matchesV x fl = true ∧ x.frame.containsPt pt = true ∧
            ∀ c ∈ x.subviews, find c pt fl = none := by
  intro n
  induction n with
  | zero =>
      intro v hv
      exfalso
      cases v <;> simp at hv
  | succ n ih =>
      intro v hv pt fl x hf
      cases v with
      | bad s => simp [find] at hf
      | node d cs ss =>
          have hnode : sizeOf (View.node d cs ss) = 1 + sizeOf d + sizeOf cs + sizeOf ss := by
            simp
          rw [find] at hf
          by_cases hc : d.frame.containsPt pt
          · rw [if_pos hc] at hf
            cases hl : findList ss pt fl with
            | some r =>
                rw [hl] at hf
                simp only [] at hf
                obtain ⟨c, hm, hfc⟩ := findList_some_mem ss pt fl r hl
                have hlt : sizeOf c < sizeOf ss := List.sizeOf_lt_of_mem hm
                have hs : sizeOf c ≤ n := by omega
                have hx := Option.some.inj hf
                subst hx
                exact ih c hs pt fl _ hfc
            | none =>
                rw [hl] at hf
                by_cases hmt : matchesFilters d fl
                · rw [if_pos hmt] at hf
                  cases hf
                  refine ⟨by simp [matchesV, hmt], by simp [View.frame, hc], ?_⟩
                  intro c hm
                  exact (findList_eq_none_iff ss pt fl).mp hl c hm
                · rw [if_neg hmt] at hf
                  cases hf
          · rw [if_neg hc] at hf
            cases hf

theorem find_all_preorder_aux :
    ∀ (n : Nat) (v : View), sizeOf v ≤ n →
      ∀ (fl : List (String × Option String)),
        find_all v fl = (preorder v).filter (fun c => matchesV c fl) := by
  intro n
  induction n with
  | zero =>
      intro v hv
      exfalso
      cases v <;> simp at hv
  | succ n ih =>
      intro v hv fl
      cases v with
      | bad s => simp [find_all, preorder, matchesV]
      | node d cs ss =>
          have hnode : sizeOf (View.node d cs ss) = 1 + sizeOf d + sizeOf cs + sizeOf ss := by
            simp
          have hlist : ∀ (l : List View), (∀ c ∈ l, sizeOf c ≤ n) →
              find_allList l fl = (preorderList l).filter (fun c => matchesV c fl) := by
            intro l
            induction l with
            | nil => intro _; simp [find_allList, preorderList]
            | cons c r ihl =>
                intro hb
                rw [find_allList, preorderList, List.filter_append]
                rw [ih c (hb c (by simp)) fl, ihl (fun c' hc' => hb c' (by simp [hc']))]
          have hss : ∀ c ∈ ss, sizeOf c ≤ n := by
            intro c hm
            have := List.sizeOf_lt_of_mem hm
            omega
          rw [find_all, preorder, List.filter_cons, hlist ss hss]
          by_cases hmt : matchesFilters d fl
          · simp [matchesV, hmt]
          · simp [matchesV, hmt]

/- ===================== claim theorems ===================== -/

/-- C1 (counterexample): in the overlapping-siblings scenario — `A`
declared first, `B` declared second, both frames containing the point
(30,30), both matching the empty filter set, the parent's frame
containing the point — `find` resolves the point to `A`, the
first-declared sibling, not to `B` as the claim states. -/
theorem claim_C1_counterexample :
    hitA.frame.containsPt ⟨30, 30⟩ = true ∧
    hitB.frame.containsPt ⟨30, 30⟩ = true ∧
    hitRoot.frame.containsPt ⟨30, 30⟩ = true ∧
    matchesV hitA [] = true ∧
    matchesV hitB [] = true ∧
    hitRoot.subviews = [hitA, hitB] ∧
    (find hitRoot ⟨30, 30⟩ []).map View.name = some "A" ∧
    hitA.name = "A" ∧ hitB.name = "B" ∧ ("A" : String) ≠ "B" := by
  refine ⟨by decide, by decide, by decide, by decide, by decide, by rfl,
    by decide, by decide, by decide, by decide⟩

/-- C1 (amended): when the point lies in a node's frame, `find` tries
the subviews first, in declaration order, and returns the first
subview's match; only if every subview misses is the node itself tested
against the filter set — so among overlapping matching siblings the
first-declared (earliest) one wins: in the concrete scenario `find`
resolves the point to `A`, not `B`. -/
theorem claim_C1_amended :
    (∀ (d : ViewData) (cs ss : List View) (pt : Point)
        (fl : List (String × Option String)),
      find (View.node d cs ss) pt fl =
        if d.frame.containsPt pt then
          match ss.findSome? (fun c => find c pt fl) with
          | some r => some r
          | none => if matchesFilters d fl then some (View.node d cs ss) else none
        else none) ∧
    (find hitRoot ⟨30, 30⟩ []).map View.name = some "A" := by
  constructor
  · intro d cs ss pt fl
    rw [find, findList_eq_findSome]
  · decide

/-- C2 (counterexample): repositioning a node of frame size (2,2) with
a (1,1) child inside the rect ((0,0),(3,3)) places the child at origin
(1,1) — centered in `inside − padding − border` — whereas the claim's
rule `inner = frame − padding − border` would place it at origin (0,0);
the two placements differ. -/
theorem claim_C2_counterexample :
    (subAt (reposition ctrRoot ⟨⟨0, 0⟩, ⟨3, 3⟩⟩) [0]).map View.frame =
      some ⟨⟨1, 1⟩, ⟨1, 1⟩⟩ ∧
    (subAt (repositionSpec ctrRoot ⟨⟨0, 0⟩, ⟨3, 3⟩⟩) [0]).map View.frame =
      some ⟨⟨0, 0⟩, ⟨1, 1⟩⟩ ∧
    (⟨⟨1, 1⟩, ⟨1, 1⟩⟩ : Rect) ≠ ⟨⟨0, 0⟩, ⟨1, 1⟩⟩ := by
  refine ⟨by decide, by decide, by decide⟩

/-- C2 (amended): `reposition(inside)` sets the node's frame origin to
`inside.origin + (inside.size − frame.size) // 2` (Python floor
division) on each axis, computes `inner` as the enclosing rect `inside`
(not the node's own frame) minus the node's padding and border, and
recursively repositions every subview within that `inner`. -/
theorem claim_C2_amended (d : ViewData) (cs ss : List View) (inside : Rect) :
    reposition (View.node d cs ss) inside =
      View.node
        { d with frame :=
          { d.frame with origin :=
              ⟨inside.left + Int.fdiv (inside.width - d.frame.width) 2,
               inside.top + Int.fdiv (inside.height - d.frame.height) 2⟩ } } cs
        (ss.map (fun c => reposition c ((inside.shrink d.padding).shrink d.border))) := by
  rw [reposition, repositionList_eq_map]

/-- C4: for every node and every offered size, `resize(available)`
computes `inside = available − padding − border` clamped to zero
independently on each axis (so it is never negative even when
`available` is smaller than padding plus border), resizes every subview
with `inside`, and sets the node's frame size to the element-wise
maximum of the subviews' resulting frame sizes and
`content_size(inside)`, plus the node's own padding and border; the
frame origin is untouched. -/
theorem claim_C4 (d : ViewData) (cs ss : List View) (avail : Size) :
    0 ≤ (insideSize d avail).w ∧ 0 ≤ (insideSize d avail).h ∧
    resize (View.node d cs ss) avail =
      View.node
        { d with frame :=
          { d.frame with size :=
              ⟨max ((ss.map (fun c => resize c (insideSize d avail))).foldl
                      (fun m c => max m c.frame.width) 0)
                   (content_size (View.node d cs ss) (insideSize d avail)).w
                 + d.padding.width + d.border.width,
               max ((ss.map (fun c => resize c (insideSize d avail))).foldl
                      (fun m c => max m c.frame.height) 0)
                   (content_size (View.node d cs ss) (insideSize d avail)).h
                 + d.padding.height + d.border.height⟩ } } cs
        (ss.map (fun c => resize c (insideSize d avail))) := by
  refine ⟨le_max_left 0 _, le_max_left 0 _, ?_⟩
  rw [resize, resizeList_eq_map]
  rfl

/-- C8: for every node running the base `View.minimum_size`
implementation (no widget override), `minimum_size()` is the fold over
the subviews in order, starting from zero on both axes, where on each
axis the running minimum becomes `max(child.minimum_size()[axis],
running + child.padding[axis] + child.border[axis])`. -/
theorem claim_C8 (d : ViewData) (cs ss : List View)
    (h : d.minSizeOverride = none) :
    minimum_size (View.node d cs ss) =
      ss.foldl (fun a c =>
        (⟨max (minimum_size c).w (a.w + c.paddingOf.width + c.borderOf.width),
          max (minimum_size c).h (a.h + c.paddingOf.height + c.borderOf.height)⟩ : Size))
        ⟨0, 0⟩ := by
  rw [minimum_size, h, minSizeFold_eq_foldl]

/-- C8 witness: the fold characterization evaluated at a concrete
two-child node whose `minSizeOverride` hypothesis holds by `rfl`. -/
theorem claim_C8_witness :
    minimum_size (View.node (baseData "W8") [] [invChild, lvLeaf]) =
      [invChild, lvLeaf].foldl (fun a c =>
        (⟨max (minimum_size c).w (a.w + c.paddingOf.width + c.borderOf.width),
          max (minimum_size c).h (a.h + c.paddingOf.height + c.borderOf.height)⟩ : Size))
        ⟨0, 0⟩ :=
  claim_C8 (baseData "W8") [] [invChild, lvLeaf] rfl

/-- C6: on every tree, a node returned by `find` matches the filters,
contains the point, and has no subview that matches — it is the deepest
match along its branch; `find_all` is exactly the pre-order listing of
the tree filtered by the match test, so a matching node is listed
before all of its matching descendants; and on the concrete 3-level
tree with matches at every level, `find` returns the deepest node
(`leaf`) while `find_all` lists shallow-to-deep (`root`, `mid`,
`leaf`) — the two traversal orders differ. -/
theorem claim_C6 :
    (∀ (v : View) (pt : Point) (fl : List (String × Option String)) (x : View),
        find v pt fl = some x →
          matchesV x fl = true ∧ x.frame.containsPt pt = true ∧
            ∀ c ∈ x.subviews, find c pt fl = none) ∧
    (∀ (v : View) (fl : List (String × Option String)),
        find_all v fl = (preorder v).filter (fun c => matchesV c fl)) ∧
    (find lvRoot ⟨5, 5⟩ []).map View.name = some "leaf" ∧
    (find_all lvRoot []).map View.name = ["root", "mid", "leaf"] := by
  refine ⟨fun v pt fl x h => find_innermost_aux (sizeOf v) v le_rfl pt fl x h,
          fun v fl => find_all_preorder_aux (sizeOf v) v le_rfl fl,
          by decide, by decide⟩

/-- C6 witness: the innermost-match property of `find` applied to the
concrete 3-level tree, the `find lvRoot (5,5) [] = some lvLeaf`
hypothesis discharged by `rfl`. -/
theorem claim_C6_witness :
    matchesV lvLeaf [] = true ∧ lvLeaf.frame.containsPt ⟨5, 5⟩ = true ∧
      ∀ c ∈ lvLeaf.subviews, find c ⟨5, 5⟩ [] = none :=
  claim_C6.1 lvRoot ⟨5, 5⟩ [] lvLeaf (by rfl)

theorem sizeOf_prep (e : Env) (j : Nat) (c : View) : sizeOf (prep e j c) = sizeOf c := by
  cases c <;> simp [prep, viewDataSizeOf]

theorem firstBad_prep (e : Env) (j : Nat) (c : View) : firstBad (prep e j c) = firstBad c := by
  cases c <;> simp [prep, firstBad]

theorem rebuild_spec_aux :
    ∀ (n : Nat),
      (∀ (v : View), sizeOf v ≤ n →
        (((rebuild v).isOk = true) ↔ firstBad v = none) ∧
        (∀ m s, rebuild v = .err m s → firstBad v = some m)) ∧
      (∀ (e : Env) (idx : Nat) (cs : List View), sizeOf cs ≤ n →
        (((rebuildChildren e idx cs).isOk = true) ↔ firstBadL cs = none) ∧
        (∀ m l, rebuildChildren e idx cs = .err m l → firstBadL cs = some m)) := by
  intro n
  induction n with
  | zero =>
      constructor
      · intro v hv; exfalso; cases v <;> simp at hv
      · intro e idx cs hcs; exfalso; cases cs <;> simp at hcs
  | succ n ih =>
      obtain ⟨ihT, ihL⟩ := ih
      constructor
      · intro v hv
        cases v with
        | bad s =>
            constructor
            · simp [rebuild, Res.isOk, firstBad]
            · intro m s' h
              simp [rebuild] at h
              simp [firstBad, h.1]
        | node d cs ss =>
            have hsz : sizeOf (View.node d cs ss) = 1 + sizeOf d + sizeOf cs + sizeOf ss := by
              simp
            have hcs : sizeOf cs ≤ n := by omega
            obtain ⟨hL1, hL2⟩ := ihL d.env 0 cs hcs
            cases hrc : rebuildChildren d.env 0 cs with
            | ok cs' =>
                have hres : rebuild (View.node d cs ss) = .ok (.node d cs' cs') := by
                  simp [rebuild, hrc]
                constructor
                · simp [hres, Res.isOk, firstBad]
                  exact hL1.mp (by simp [hrc, Res.isOk])
                · intro m s' h
                  rw [hres] at h
                  cases h
            | err m l =>
                have hres : rebuild (View.node d cs ss) = .err m (.node d l ss) := by
                  simp [rebuild, hrc]
                have hfb : firstBadL cs = some m := hL2 m l hrc
                constructor
                · simp [hres, Res.isOk, firstBad, hfb]
                · intro m' s' h
                  rw [hres] at h
                  obtain ⟨hm, -⟩ := Res.err.inj h
                  simp [firstBad, hfb, hm]
      · intro e idx cs hcs
        cases cs with
        | nil =>
            constructor
            · simp [rebuildChildren, Res.isOk, firstBadL]
            · intro m l h; simp [rebuildChildren] at h
        | cons c rest =>
            have hsz : sizeOf (c :: rest) = 1 + sizeOf c + sizeOf rest := by simp
            have hrest : sizeOf rest ≤ n := by omega
            have hc : sizeOf c ≤ n := by omega
            cases c with
            | bad s =>
                have hres : rebuildChildren e idx (View.bad s :: rest) =
                    .err s (View.bad s :: rest) := by
                  simp [rebuildChildren]
                have hfb : firstBadL (View.bad s :: rest) = some s := by
                  simp [firstBadL, firstBad]
                constructor
                · simp [hres, Res.isOk, hfb]
                · intro m l h
                  rw [hres] at h
                  obtain ⟨hm, -⟩ := Res.err.inj h
                  subst hm
                  exact hfb
            | node cd ccs css =>
                obtain ⟨hT1, hT2⟩ := ihT (prep e idx (.node cd ccs css))
                  (by rw [sizeOf_prep]; exact hc)
                cases hr : rebuild (prep e idx (.node cd ccs css)) with
                | err m c' =>
                    have hfb : firstBad (View.node cd ccs css) = some m := by
                      rw [← firstBad_prep e idx]; exact hT2 m c' hr
                    have hres : rebuildChildren e idx (View.node cd ccs css :: rest) =
                        .err m (c' :: rest) := by
                      simp [rebuildChildren, hr]
                    have hfbl : firstBadL (View.node cd ccs css :: rest) = some m := by
                      rw [firstBadL, hfb]
                    constructor
                    · simp [hres, Res.isOk, hfbl]
                    · intro m' l h
                      rw [hres] at h
                      obtain ⟨hm, -⟩ := Res.err.inj h
                      rw [hfbl, hm]
                | ok c' =>
                    have hfb : firstBad (View.node cd ccs css) = none := by
                      rw [← firstBad_prep e idx]
                      exact hT1.mp (by simp [hr, Res.isOk])
                    have hfbl : firstBadL (View.node cd ccs css :: rest) = firstBadL rest := by
                      rw [firstBadL, hfb]
                    obtain ⟨hR1, hR2⟩ := ihL e (idx + 1) rest hrest
                    cases hrr : rebuildChildren e (idx + 1) rest with
                    | ok rest' =>
                        have hres : rebuildChildren e idx (View.node cd ccs css :: rest) =
                            .ok (c' :: rest') := by
                          simp [rebuildChildren, hr, hrr]
                        constructor
                        · rw [hfbl]
                          simp [hres, Res.isOk]
                          exact hR1.mp (by simp [hrr, Res.isOk])
                        · intro m l h
                          rw [hres] at h
                          cases h
                    | err m l =>
                        have hres : rebuildChildren e idx (View.node cd ccs css :: rest) =
                            .err m (c' :: l) := by
                          simp [rebuildChildren, hr, hrr]
                        have hfr : firstBadL rest = some m := hR2 m l hrr
                        constructor
                        · simp [hres, Res.isOk, hfbl, hfr]
                        · intro m' l' h
                          rw [hres] at h
                          obtain ⟨hm, -⟩ := Res.err.inj h
                          rw [hfbl, hfr, hm]

theorem rebuild_err_subviews (d : ViewData) (cs ss : List View) (m : String) (s' : View)
    (h : rebuild (View.node d cs ss) = .err m s') : s'.subviews = ss := by
  cases hrc : rebuildChildren d.env 0 cs with
  | ok cs' => simp [rebuild, hrc] at h
  | err m' l =>
      have hres : rebuild (View.node d cs ss) = .err m' (.node d l ss) := by
        simp [rebuild, hrc]
      rw [hres] at h
      obtain ⟨-, hs⟩ := Res.err.inj h
      rw [← hs]
      rfl

/-- C3: `rebuild(node)` raises an error if and only if some declared
child in the node's declaration closure expands to a non-`View` value;
the error names the offending value's runtime type (the first such
value in reconciliation order); and on that error `node.subviews` is
left unchanged — the new child list is installed only after every
produced child has been validated and recursively rebuilt. -/
theorem claim_C3 (d : ViewData) (cs ss : List View) :
    ((∃ m s', rebuild (View.node d cs ss) = .err m s') ↔ (firstBadL cs).isSome = true) ∧
    (∀ m s', rebuild (View.node d cs ss) = .err m s' →
        firstBadL cs = some m ∧ s'.subviews = ss) := by
  obtain ⟨hIff, hMsg⟩ :=
    (rebuild_spec_aux (sizeOf (View.node d cs ss))).1 (View.node d cs ss) le_rfl
  have hfb : firstBad (View.node d cs ss) = firstBadL cs := by rw [firstBad]
  constructor
  · constructor
    · rintro ⟨m, s', h⟩
      have := hMsg m s' h
      rw [hfb] at this
      simp [this]
    · intro hsome
      cases hres : rebuild (View.node d cs ss) with
      | ok w =>
          exfalso
          have := hIff.mp (by simp [hres, Res.isOk])
          rw [hfb] at this
          simp [this] at hsome
      | err m s' => exact ⟨m, s', rfl⟩
  · intro m s' h
    refine ⟨?_, rebuild_err_subviews d cs ss m s' h⟩
    have := hMsg m s' h
    rwa [hfb] at this

/-- C3 witness: the concrete tree whose declarations are a valid child
followed by a `str` value: `rebuild` raises naming `str` and the
exception state keeps the old `subviews`. -/
theorem claim_C3_witness :
    firstBadL [goodChild, View.bad "str"] = some "str" ∧
    (View.node (baseData "BadRoot")
      [(rebuild (prep (baseData "BadRoot").env 0 goodChild)).state, View.bad "str"]
      [oldChild] : View).subviews = [oldChild] :=
  (claim_C3 (baseData "BadRoot") [goodChild, View.bad "str"] [oldChild]).2 "str" _
    (by simp [rebuild, rebuildChildren, goodChild, prep, Res.state])

theorem Res.ok_of_isOk {α : Type} (r : Res α) (h : r.isOk = true) : r = .ok r.state := by
  cases r with
  | ok a => rfl
  | err m a => simp [Res.isOk] at h

theorem rebuild_prep_ok (e : Env) (j : Nat) (cd : ViewData) (ccs css : List View)
    (h : firstBadL ccs = none) :
    ∃ c', rebuild (prep e j (View.node cd ccs css)) = .ok c' := by
  have hIff := ((rebuild_spec_aux (sizeOf (prep e j (View.node cd ccs css)))).1 _ le_rfl).1
  have hok : (rebuild (prep e j (View.node cd ccs css))).isOk = true := by
    apply hIff.mpr
    rw [firstBad_prep, firstBad]
    exact h
  exact ⟨_, Res.ok_of_isOk _ hok⟩

theorem rebuildChildren_bad_prefix :
    ∀ (pre : List View) (e : Env) (idx : Nat) (s : String) (rest : List View),
      (∀ c ∈ pre, ∃ cd ccs css, c = View.node cd ccs css ∧ firstBadL ccs = none) →
      rebuildChildren e idx (pre ++ View.bad s :: rest) =
        .err s (rebuiltPre e idx pre ++ View.bad s :: rest) := by
  intro pre
  induction pre with
  | nil => intro e idx s rest _; simp [rebuildChildren, rebuiltPre]
  | cons c pre' ih =>
      intro e idx s rest hpre
      obtain ⟨cd, ccs, css, hceq, hfb⟩ := hpre c (by simp)
      subst hceq
      obtain ⟨c', hok⟩ := rebuild_prep_ok e idx cd ccs css hfb
      have hih := ih e (idx + 1) s rest (fun c hc => hpre c (by simp [hc]))
      simp [rebuildChildren, hok, hih, rebuiltPre, Res.state]

theorem rebuiltPre_get :
    ∀ (pre : List View) (e : Env) (idx j : Nat) (c : View),
      pre.get? j = some c →
      (rebuiltPre e idx pre).get? j = some ((rebuild (prep e (idx + j) c)).state) := by
  intro pre
  induction pre with
  | nil => intro e idx j c h; simp at h
  | cons c0 pre' ih =>
      intro e idx j c h
      cases j with
      | zero =>
          rw [List.get?_cons_zero] at h
          have h0 := Option.some.inj h
          subst h0
          simp [rebuiltPre]
      | succ j' =>
          rw [List.get?_cons_succ] at h
          have hr := ih e (idx + 1) j' c h
          have harith : idx + 1 + j' = idx + (j' + 1) := by omega
          rw [harith] at hr
          simpa [rebuiltPre] using hr

theorem rebuild_ok_shape (d : ViewData) (cs ss : List View) (w : View)
    (h : rebuild (View.node d cs ss) = .ok w) : ∃ cs', w = View.node d cs' cs' := by
  cases hrc : rebuildChildren d.env 0 cs with
  | ok cs' =>
      have hres : rebuild (View.node d cs ss) = .ok (.node d cs' cs') := by
        simp [rebuild, hrc]
      rw [hres] at h
      exact ⟨cs', (Res.ok.inj h).symm⟩
  | err m l => simp [rebuild, hrc] at h

/-- C10: when the declarations of a node are a prefix of well-formed
children followed by a non-`View` value of runtime type `s`, `rebuild`
raises naming `s`, the exception state keeps the node's old `subviews`
(that is the whole extent of the atomicity), but its `contents` now
holds, in place of each prefix child, that child after its
`parent`/`index`/`env` fields were assigned and it was itself
recursively rebuilt. -/
theorem claim_C10 (d : ViewData) (ss pre rest : List View) (s : String)
    (hpre : ∀ c ∈ pre, ∃ cd ccs css, c = View.node cd ccs css ∧ firstBadL ccs = none) :
    rebuild (View.node d (pre ++ View.bad s :: rest) ss) =
      .err s (View.node d (rebuiltPre d.env 0 pre ++ View.bad s :: rest) ss) ∧
    (View.node d (rebuiltPre d.env 0 pre ++ View.bad s :: rest) ss).subviews = ss ∧
    (∀ j c, pre.get? j = some c →
      ∃ c', (rebuiltPre d.env 0 pre).get? j = some c' ∧
        rebuild (prep d.env j c) = .ok c' ∧
        c'.parentSetOf = true ∧ c'.indexOf = j ∧
        c'.envOf = Env.overlay d.env c.envOverridesOf) := by
  have hrc := rebuildChildren_bad_prefix pre d.env 0 s rest hpre
  refine ⟨by simp [rebuild, hrc], rfl, ?_⟩
  intro j c hj
  have hmem : c ∈ pre := List.get?_mem hj
  obtain ⟨cd, ccs, css, hceq, hfb⟩ := hpre c hmem
  subst hceq
  obtain ⟨c', hok⟩ := rebuild_prep_ok d.env j cd ccs css hfb
  have hget := rebuiltPre_get pre d.env 0 j _ hj
  rw [Nat.zero_add, hok] at hget
  have hok' := hok
  simp only [prep] at hok'
  obtain ⟨cs'', hw⟩ := rebuild_ok_shape _ ccs css c' hok'
  subst hw
  exact ⟨_, by simpa [Res.state] using hget, hok, rfl, rfl, rfl⟩

/-- C10 witness: the concrete bad tree — the valid first child is
rebuilt and rewired in `contents` while `subviews` keeps the old
list. -/
theorem claim_C10_witness :
    rebuild (View.node (baseData "BadRoot") ([goodChild] ++ View.bad "str" :: []) [oldChild]) =
      .err "str" (View.node (baseData "BadRoot")
        (rebuiltPre (baseData "BadRoot").env 0 [goodChild] ++ View.bad "str" :: [])
        [oldChild]) :=
  (claim_C10 (baseData "BadRoot") [oldChild] [goodChild] [] "str"
    (fun c hm => by
      simp at hm
      subst hm
      exact ⟨baseData "Good", [], [], rfl, rfl⟩)).1

theorem dirtyOf_setDirty_false (v : View) : (setDirty v false).dirtyOf = false := by
  cases v <;> simp [setDirty, View.dirtyOf]

theorem layout_ok_dirty (v : View) (r : Rect) (w : View) (h : layout v r = .ok w) :
    w.dirtyOf = false := by
  rw [layout] at h
  cases hi : (if v.subviews.isEmpty then rebuild v else .ok v) with
  | err m s => rw [hi] at h; cases h
  | ok v1 =>
      rw [hi] at h
      simp only [] at h
      have hw := Res.ok.inj h
      rw [← hw]
      exact dirtyOf_setDirty_false _

/-- C7: for every node of a tree (a valid `subviews` path from the
root) whose rebuild succeeds, `state_changed(name, value)` — whatever
the name and value, which the source ignores — synchronously rebuilds
that node's subtree in place and sets the tree root's `dirty` flag to
`true`; and any subsequent `layout(rect)` call on that root that
returns normally leaves `dirty` at `false`. -/
theorem claim_C7 (root : View) (path : List Nat) (n n' : View) (nm val : String)
    (h1 : subAt root path = some n) (h2 : rebuild n = .ok n') :
    state_changed root path nm val = .ok (setDirty (updateSub root path n') true) ∧
    (setDirty (updateSub root path n') true).dirtyOf = true ∧
    (∀ (r : Rect) (w : View),
        layout (setDirty (updateSub root path n') true) r = .ok w → w.dirtyOf = false) := by
  refine ⟨by simp [state_changed, h1, h2], ?_, fun r w hw => layout_ok_dirty _ r w hw⟩
  have hnode : ∃ dd cc sss, updateSub root path n' = View.node dd cc sss := by
    cases path with
    | nil =>
        cases hn : n with
        | bad s =>
            rw [hn] at h2
            simp [rebuild] at h2
        | node d cs ss =>
            rw [hn] at h2
            obtain ⟨cs', hw⟩ := rebuild_ok_shape d cs ss n' h2
            exact ⟨d, cs', cs', by rw [updateSub, hw]⟩
    | cons i p =>
        cases root with
        | bad s => simp [subAt] at h1
        | node d cs ss =>
            cases hg : ss.get? i with
            | some c => exact ⟨d, cs, _, by rw [updateSub, hg]⟩
            | none => exact ⟨d, cs, ss, by rw [updateSub, hg]⟩
  obtain ⟨dd, cc, sss, heq⟩ := hnode
  rw [heq]
  rfl

/-- C7 witness: mutating state on the child of the concrete two-node
tree — the root comes back marked dirty and a following `layout` in the
viewport clears the flag. -/
theorem claim_C7_witness :
    state_changed invRoot [0] "n" "v" =
      .ok (setDirty (updateSub invRoot [0] (View.node (baseData "InvChild") [] [])) true) ∧
    (setDirty (updateSub invRoot [0] (View.node (baseData "InvChild") [] [])) true).dirtyOf
      = true ∧
    ((layout (setDirty (updateSub invRoot [0] (View.node (baseData "InvChild") [] [])) true)
        viewport).state).dirtyOf = false := by
  have h := claim_C7 invRoot [0] invChild (View.node (baseData "InvChild") [] []) "n" "v"
    (by rfl) (by simp [rebuild, rebuildChildren, invChild])
  exact ⟨h.1, h.2.1, h.2.2 viewport _ (Res.ok_of_isOk _ (by decide))⟩

/-- C5 (counterexample): a root with padding (10,10,10,10) holding one
leaf whose `minimum_size()` returns (50,20) but whose `content_size` is
the base-class zero default, laid out in a (200,100) viewport, gives
the leaf a frame of size (0,0) — not at least (50,20) — and the root a
frame of size (20,20) — not at least (70,40): the default `resize`
never consults `minimum_size`. -/
theorem claim_C5_counterexample :
    minimum_size leafMin = ⟨50, 20⟩ ∧
    (layout rootMin viewport).isOk = true ∧
    (subAt (layout rootMin viewport).state [0]).map View.frame =
      some ⟨⟨100, 50⟩, ⟨0, 0⟩⟩ ∧
    ¬(50 ≤ (0 : Int) ∧ 20 ≤ (0 : Int)) ∧
    ((layout rootMin viewport).state).frame.size = ⟨20, 20⟩ ∧
    ¬(70 ≤ (20 : Int) ∧ 40 ≤ (20 : Int)) := by
  refine ⟨by decide, by decide, by decide, by decide, by decide, by decide⟩

/-- C5 (amended): the same scenario with the leaf's measurement carried
by the hook `resize` actually consults — `content_size(inside) =
(50,20)` (its `minimum_size()` still returns (50,20)): after layout in
the (200,100) viewport the leaf frame is exactly ((75,40),(50,20)) —
size at least (50,20) — the root frame is ((65,30),(70,40)) — size at
least (70,40) — and the root's inner rect (frame minus padding and
border) equals the leaf frame, so the leaf is centered inside it. -/
theorem claim_C5_amended :
    minimum_size leafContent = ⟨50, 20⟩ ∧
    content_size leafContent ⟨180, 80⟩ = ⟨50, 20⟩ ∧
    (layout rootContent viewport).isOk = true ∧
    ((layout rootContent viewport).state).frame = ⟨⟨65, 30⟩, ⟨70, 40⟩⟩ ∧
    (subAt (layout rootContent viewport).state [0]).map View.frame =
      some ⟨⟨75, 40⟩, ⟨50, 20⟩⟩ ∧
    ((((layout rootContent viewport).state).frame.shrink ⟨10, 10, 10, 10⟩).shrink
        ⟨0, 0, 0, 0⟩) = ⟨⟨75, 40⟩, ⟨50, 20⟩⟩ := by
  refine ⟨by decide, by decide, by decide, by decide, by decide, by decide⟩

theorem Env.overlay_noOverride (e : Env) : Env.overlay e EnvOverrides.noOverride = e := rfl

theorem chainEnv_prep (x e : Env) (j : Nat) (c : View) (p : List Nat) :
    chainEnv x (prep e j c) p = chainEnv x c p := by
  cases c <;> cases p <;> simp [prep, chainEnv]

theorem rebuild_ok_children (d : ViewData) (cs ss cs' : List View)
    (h : rebuild (View.node d cs ss) = .ok (View.node d cs' cs')) :
    rebuildChildren d.env 0 cs = .ok cs' := by
  cases hrc : rebuildChildren d.env 0 cs with
  | ok x =>
      have hres : rebuild (View.node d cs ss) = .ok (.node d x x) := by simp [rebuild, hrc]
      rw [hres] at h
      have hx := Res.ok.inj h
      injection hx with h1 h2 h3
      subst h2
      rfl
  | err m l => simp [rebuild, hrc] at h

theorem rebuildChildren_ok_get :
    ∀ (cs : List View) (e : Env) (idx : Nat) (cs' : List View),
      rebuildChildren e idx cs = .ok cs' →
      cs'.length = cs.length ∧
      ∀ i ci, cs.get? i = some ci →
        ∃ ci', cs'.get? i = some ci' ∧ rebuild (prep e (idx + i) ci) = .ok ci' := by
  intro cs
  induction cs with
  | nil =>
      intro e idx cs' h
      simp [rebuildChildren] at h
      refine ⟨by simp [← h], ?_⟩
      intro i ci hi
      simp at hi
  | cons c rest ih =>
      intro e idx cs' h
      cases c with
      | bad s => simp [rebuildChildren] at h
      | node cd ccs css =>
          cases hr : rebuild (prep e idx (.node cd ccs css)) with
          | err m c' => simp [rebuildChildren, hr] at h
          | ok c' =>
              cases hrr : rebuildChildren e (idx + 1) rest with
              | err m l => simp [rebuildChildren, hr, hrr] at h
              | ok rest' =>
                  have hres : rebuildChildren e idx (View.node cd ccs css :: rest) =
                      .ok (c' :: rest') := by
                    simp [rebuildChildren, hr, hrr]
                  rw [hres] at h
                  have hcs' := Res.ok.inj h
                  subst hcs'
                  obtain ⟨hlen, hget⟩ := ih e (idx + 1) rest' hrr
                  refine ⟨by simp [hlen], ?_⟩
                  intro i ci hi
                  cases i with
                  | zero =>
                      rw [List.get?_cons_zero] at hi
                      have h0 := Option.some.inj hi
                      subst h0
                      exact ⟨c', by simp, by simpa using hr⟩
                  | succ i' =>
                      rw [List.get?_cons_succ] at hi
                      obtain ⟨ci', hg, hr2⟩ := hget i' ci hi
                      refine ⟨ci', by simpa using hg, ?_⟩
                      have harith : idx + 1 + i' = idx + (i' + 1) := by omega
                      rwa [harith] at hr2

theorem rebuild_subview_env (v v' : View) (h : rebuild v = .ok v') :
    ∀ c' ∈ v'.subviews, c'.envOf = Env.overlay v.envOf c'.envOverridesOf := by
  intro c' hmem
  cases v with
  | bad s => simp [rebuild] at h
  | node d cs ss =>
      obtain ⟨cs', hw⟩ := rebuild_ok_shape d cs ss v' h
      subst hw
      rw [View.subviews] at hmem
      have hrc : rebuildChildren d.env 0 cs = .ok cs' := rebuild_ok_children d cs ss cs' h
      obtain ⟨i, hg⟩ := List.mem_iff_get?.mp hmem
      obtain ⟨hlen, hget⟩ := rebuildChildren_ok_get cs d.env 0 cs' hrc
      obtain ⟨hlt, -⟩ := List.get?_eq_some.mp hg
      have hlt' : i < cs.length := by omega
      obtain ⟨ci, hci⟩ : ∃ ci, cs.get? i = some ci := by
        cases hc : cs.get? i with
        | some x => exact ⟨x, rfl⟩
        | none => rw [List.get?_eq_none] at hc; omega
      obtain ⟨ci'', hg2, hrok⟩ := hget i ci hci
      have hcc : ci'' = c' := by rw [hg] at hg2; exact (Option.some.inj hg2).symm
      subst hcc
      cases hcin : ci with
      | bad s2 =>
          rw [hcin] at hrok
          simp [prep, rebuild] at hrok
      | node cd ccs css =>
          rw [hcin] at hrok
          have hrok' := hrok
          simp only [prep] at hrok'
          obtain ⟨k, hwc⟩ := rebuild_ok_shape _ ccs css ci'' hrok'
          subst hwc
          rfl

theorem rebuild_env_chain :
    ∀ (q : List Nat) (v v' a : View), rebuild v = .ok v' → subAt v' q = some a →
      some a.envOf = chainEnv v.envOf v q := by
  intro q
  induction q with
  | nil =>
      intro v v' a h hs
      rw [subAt] at hs
      have ha := Option.some.inj hs
      subst ha
      cases v with
      | bad s => simp [rebuild] at h
      | node d cs ss =>
          obtain ⟨cs', hw⟩ := rebuild_ok_shape d cs ss v' h
          subst hw
          simp [chainEnv, View.envOf]
  | cons i p ih =>
      intro v v' a h hs
      cases v with
      | bad s => simp [rebuild] at h
      | node d cs ss =>
          obtain ⟨cs', hw⟩ := rebuild_ok_shape d cs ss v' h
          subst hw
          have hrc : rebuildChildren d.env 0 cs = .ok cs' := rebuild_ok_children d cs ss cs' h
          rw [subAt] at hs
          cases hg : cs'.get? i with
          | none => rw [hg] at hs; simp at hs
          | some ci' =>
              rw [hg] at hs
              simp only [] at hs
              obtain ⟨hlen, hget⟩ := rebuildChildren_ok_get cs d.env 0 cs' hrc
              obtain ⟨hlt, -⟩ := List.get?_eq_some.mp hg
              have hlt' : i < cs.length := by omega
              obtain ⟨ci, hci⟩ : ∃ ci, cs.get? i = some ci := by
                cases hc : cs.get? i with
                | some x => exact ⟨x, rfl⟩
                | none => rw [List.get?_eq_none] at hc; omega
              obtain ⟨ci'', hg2, hrok⟩ := hget i ci hci
              have hcc : ci'' = ci' := by rw [hg] at hg2; exact (Option.some.inj hg2).symm
              subst hcc
              cases hcin : ci with
              | bad s2 =>
                  rw [hcin] at hrok
                  simp [prep, rebuild] at hrok
              | node cd ccs css =>
                  rw [hcin] at hrok
                  have hih := ih (prep d.env (0 + i) (.node cd ccs css)) ci'' a hrok hs
                  rw [chainEnv_prep] at hih
                  have hpe : (prep d.env (0 + i) (View.node cd ccs css)).envOf =
                      Env.overlay d.env cd.envOverrides := by
                    simp [prep, View.envOf]
                  rw [hpe] at hih
                  rw [View.envOf, chainEnv, hci, hcin]
                  simpa [View.envOverridesOf] using hih

theorem replaceDecl_envOf (t s : View) (k : Nat) (p : List Nat) :
    (replaceDecl t (k :: p) s).envOf = t.envOf := by
  cases t with
  | bad b => simp [replaceDecl]
  | node d cs ss =>
      rw [replaceDecl]
      cases cs.get? k <;> rfl

theorem replaceDecl_envOverridesOf (t s : View) (k : Nat) (p : List Nat) :
    (replaceDecl t (k :: p) s).envOverridesOf = t.envOverridesOf := by
  cases t with
  | bad b => simp [replaceDecl]
  | node d cs ss =>
      rw [replaceDecl]
      cases cs.get? k <;> rfl

theorem chainEnv_replaceDecl_off :
    ∀ (q p : List Nat), offPath p q = true →
      ∀ (e : Env) (t s : View), chainEnv e (replaceDecl t p s) q = chainEnv e t q := by
  intro q
  induction q with
  | nil => intro p hp e t s; cases hr : replaceDecl t p s <;> cases t <;> simp [chainEnv]
  | cons j q' ih =>
      intro p hp e t s
      cases p with
      | nil => simp [offPath] at hp
      | cons i p' =>
          cases t with
          | bad b => simp [replaceDecl]
          | node d cs ss =>
              rw [replaceDecl]
              cases hg : cs.get? i with
              | none => rfl
              | some ci =>
                  by_cases hij : i = j
                  · subst hij
                    have hp' : offPath p' q' = true := by simpa [offPath] using hp
                    have hp'nil : p' ≠ [] := by
                      intro hcon
                      rw [hcon] at hp'
                      simp [offPath] at hp'
                    obtain ⟨k, p'', hp''⟩ : ∃ k p'', p' = k :: p'' := by
                      cases p' with
                      | nil => exact absurd rfl hp'nil
                      | cons k p'' => exact ⟨k, p'', rfl⟩
                    rw [chainEnv, chainEnv]
                    have hlt : i < cs.length := by
                      obtain ⟨hl, -⟩ := List.get?_eq_some.mp hg
                      exact hl
                    have hset : (cs.set i (replaceDecl ci p' s)).get? i =
                        some (replaceDecl ci p' s) :=
                      List.get?_set_eq_of_lt _ hlt
                    rw [hset, hg]
                    simp only []
                    rw [hp'', replaceDecl_envOverridesOf, ← hp'']
                    exact ih p' hp' _ ci s
                  · rw [chainEnv, chainEnv]
                    have hset : (cs.set i (replaceDecl ci p' s)).get? j = cs.get? j :=
                      List.get?_set_ne _ _ hij
                    rw [hset]

/-- C9: environment inheritance and non-interference after
reconciliation, against the spec-modelled Environment (env.py is not
under src/): every reconciled child's environment is the parent's
environment overlaid with the child's own explicit overrides — so a
child with no overrides reads every field identical to its parent, and
a child overriding field X reads its own X and the parent's other
fields — and replacing the declared subtree at a path `p` with an
arbitrary subtree (any override change included) leaves the
environment of every node outside `p`'s subtree unchanged: sibling
subtrees cannot observe each other's overrides. -/
theorem claim_C9 :
    (∀ (v v' : View), rebuild v = .ok v' → ∀ c' ∈ v'.subviews,
        c'.envOf = Env.overlay v.envOf c'.envOverridesOf) ∧
    (∀ (v v' : View), rebuild v = .ok v' → ∀ c' ∈ v'.subviews,
        c'.envOverridesOf = EnvOverrides.noOverride → c'.envOf = v.envOf) ∧
    (∀ (v v' : View), rebuild v = .ok v' → ∀ c' ∈ v'.subviews,
        (c'.envOverridesOf.scale = none → c'.envOf.scale = v.envOf.scale) ∧
        (∀ x, c'.envOverridesOf.scale = some x → c'.envOf.scale = x) ∧
        (c'.envOverridesOf.font = none → c'.envOf.font = v.envOf.font) ∧
        (∀ x, c'.envOverridesOf.font = some x → c'.envOf.font = x) ∧
        (c'.envOverridesOf.color = none → c'.envOf.color = v.envOf.color) ∧
        (∀ x, c'.envOverridesOf.color = some x → c'.envOf.color = x)) ∧
    (∀ (t s t' t₂ : View) (p q : List Nat) (a b : View),
        rebuild t = .ok t' → rebuild (replaceDecl t p s) = .ok t₂ →
        offPath p q = true → subAt t' q = some a → subAt t₂ q = some b →
        a.envOf = b.envOf) := by
  refine ⟨rebuild_subview_env, ?_, ?_, ?_⟩
  · intro v v' h c' hm hno
    rw [rebuild_subview_env v v' h c' hm, hno, Env.overlay_noOverride]
  · intro v v' h c' hm
    have he := rebuild_subview_env v v' h c' hm
    refine ⟨?_, ?_, ?_, ?_, ?_, ?_⟩ <;> rw [he] <;> intro hx
    · rw [Env.overlay]; simp [hx]
    all_goals try (intro hhx; rw [Env.overlay]; simp [hhx])
    · rw [Env.overlay]; simp [hx]
    · rw [Env.overlay]; simp [hx]
  · intro t s t' t₂ p q a b ht ht2 hoff ha hb
    have hchain1 := rebuild_env_chain q t t' a ht ha
    have hchain2 := rebuild_env_chain q (replaceDecl t p s) t₂ b ht2 hb
    have hroot : (replaceDecl t p s).envOf = t.envOf := by
      cases p with
      | nil => simp [offPath] at hoff
      | cons k p' => exact replaceDecl_envOf t s k p'
    rw [hroot, chainEnv_replaceDecl_off q p hoff t.envOf t s] at hchain2
    exact Option.some.inj (hchain1.trans hchain2.symm)

/-- C9 witness: in the concrete scenario — a parent with environment
(2, serif, 7), one child overriding only the font, one child with no
overrides — the no-override child reads the parent's environment
verbatim after reconciliation. -/
theorem claim_C9_witness :
    (prep (⟨2, "serif", 7⟩ : Env) 1 envKid2).envOf = envRoot.envOf :=
  claim_C9.2.1 envRoot (rebuild envRoot).state
    (Res.ok_of_isOk _ (by
      simp [rebuild, rebuildChildren, envRoot, envKid1, envKid2, prep, Res.isOk]))
    (prep (⟨2, "serif", 7⟩ : Env) 1 envKid2)
    (by simp [rebuild, rebuildChildren, envRoot, envKid1, envKid2, prep, Res.state,
          View.subviews])
    (by rfl)

end PyUI
